import Mathlib

/-!
Verification of the hybrid-search retrieval pipeline (admin_site/functions/search.py
and admin_site/functions/reranking.py), shallowly embedded in Lean.

Numeric scores are modelled as rationals (`ℚ`).  The external Firestore store and
the generative-model services are modelled as inputs: a collection is a list of
documents, a `find_nearest` call is the candidate list it returns (each candidate
carrying the `vector_distance` Firestore would report for the current query,
possibly absent), and a model call is its outcome (`Except`) together with a
JSON-parsing function.  Python's stable `list.sort(key=..., reverse=True)` is
modelled by `List.insertionSort` with the ≥-on-score relation, which is the same
stable descending sort.
-/

/-- A Firestore document of a `{collection}_documents` collection, restricted to
the fields the search path reads.  `sim` models the `vector_distance` value that
Firestore reports for this document under the current query vector
(`distance_result_field="vector_distance"`); it is `none` when the field is
absent from the returned data. -/
structure Doc where
  docId : String
  keywords : List String
  sim : Option ℚ
  summary : String := ""
  fileName : String := ""
  storagePath : String := ""
deriving DecidableEq, Repr

/-- An element document returned by the collection-group vector query of
`search_elements`, restricted to the fields read by the code. -/
structure ElemDoc where
  elemId : String
  parentDocumentId : String
  elementType : String := ""
  title : Option String := none
  description : String := ""
  parentFileName : String := ""
  parentStoragePath : String := ""
  sim : Option ℚ
deriving DecidableEq, Repr

/-- One entry of the result lists built by `search_collection`,
`search_elements` and `rerank_results` (the Python result dict). -/
structure SearchResult where
  documentId : String
  collectionId : String
  rawSimilarity : Option ℚ
  weightedScore : ℚ
  matchType : String
  summary : String := ""
  keywords : List String := []
  fileName : String := ""
  storagePath : String := ""
  elementId : Option String := none
  rerankPosition : Option Nat := none
  originalPosition : Option Int := none
  rerankExplanation : Option String := none
deriving DecidableEq, Repr

/-- `calculate_relevance_score` (search.py): DOT_PRODUCT similarity to a
relevance score, `max(0.0, min(1.0, (similarity - 0.25) / 0.5))`, and `0.0`
for a null similarity. -/
def calculate_relevance_score (similarity : Option ℚ) : ℚ :=
  match similarity with
  | none => 0
  | some s => max 0 (min 1 ((s - 1/4) / (1/2)))

/-- The relation of the final `results.sort(key=weightedScore, reverse=True)`:
`a` may stay before `b` when its score is at least `b`'s. -/
def scoreGE (a b : SearchResult) : Prop :=
  b.weightedScore ≤ a.weightedScore

instance : DecidableRel scoreGE := fun a b =>
  inferInstanceAs (Decidable (b.weightedScore ≤ a.weightedScore))

instance : IsTotal SearchResult scoreGE :=
  ⟨fun a b => le_total b.weightedScore a.weightedScore⟩

instance : IsTrans SearchResult scoreGE :=
  ⟨fun _ _ _ hab hbc => le_trans hbc hab⟩

/-- Python's stable descending sort on `weightedScore`
(`results.sort(key=lambda x: x.get("weightedScore", 0), reverse=True)`).
A stable sort's output is determined by the key and the input order, so the
stable `insertionSort` by `scoreGE` computes the same list as CPython's sort. -/
def sortByScoreDesc (l : List SearchResult) : List SearchResult :=
  l.insertionSort scoreGE

/-- The Firestore query
`docs_ref.where("content.keywords", "array_contains", term).limit(n)`:
up to `n` documents of the collection whose keyword array contains `term`. -/
def keywordQueryRes (db : List Doc) (term : String) (n : Nat) : List Doc :=
  (db.filter (fun d => term ∈ d.keywords)).take n

/-- The result dict built for an exact keyword match in phase 1 of
`search_collection` (fixed score `0.95`, `matchType="exact"`). -/
def exactResultOf (collectionId : String) (d : Doc) : SearchResult :=
  { documentId := d.docId
    collectionId := collectionId
    rawSimilarity := none
    weightedScore := 19/20
    matchType := "exact"
    summary := d.summary
    keywords := d.keywords
    fileName := d.fileName
    storagePath := d.storagePath }

/-- One iteration of the phase-1 loop body of `search_collection`: skip the
document when its id is in `seen_doc_ids`, otherwise append the exact-match
result and record the id. -/
def phase1Step (collectionId : String)
    (acc : List SearchResult × List String) (d : Doc) :
    List SearchResult × List String :=
  if d.docId ∈ acc.2 then acc
  else (acc.1 ++ [exactResultOf collectionId d], acc.2 ++ [d.docId])

/-- Phase 1 of `search_collection`: for each exact term, iterate the keyword
query limited to `limit`, deduplicating through `seen_doc_ids`.  Returns the
accumulated `(results, seen_doc_ids)` pair. -/
def exactPhase (collectionId : String) (db : List Doc) (limit : Nat)
    (exactTerms : List String) : List SearchResult × List String :=
  exactTerms.foldl
    (fun acc term => (keywordQueryRes db term limit).foldl (phase1Step collectionId) acc)
    ([], [])

/-- The result dict built for a semantic vector match in phase 2 of
`search_collection`. -/
def semResultOf (collectionId : String) (d : Doc) : SearchResult :=
  { documentId := d.docId
    collectionId := collectionId
    rawSimilarity := d.sim
    weightedScore := calculate_relevance_score d.sim
    matchType := "semantic"
    summary := d.summary
    keywords := d.keywords
    fileName := d.fileName
    storagePath := d.storagePath }

/-- One iteration of the phase-2 loop body of `search_collection`: skip ids
already seen, drop candidates whose (non-null) similarity is below the
threshold, otherwise append the semantic result and record the id. -/
def phase2Step (collectionId : String) (threshold : ℚ)
    (acc : List SearchResult × List String) (d : Doc) :
    List SearchResult × List String :=
  if d.docId ∈ acc.2 then acc
  else
    match d.sim with
    | some s =>
        if s < threshold then acc
        else (acc.1 ++ [semResultOf collectionId d], acc.2 ++ [d.docId])
    | none => (acc.1 ++ [semResultOf collectionId d], acc.2 ++ [d.docId])

/-- `search_collection` in standard (non-debug) mode.  `semCandidates` is the
list that the `find_nearest(..., limit=limit)` vector query returns for the
query embedding (Firestore guarantees `semCandidates.length ≤ limit`; this is a
hypothesis where a theorem needs it). -/
def searchCollectionStd (collectionId : String) (db : List Doc)
    (semCandidates : List Doc) (limit : Nat) (threshold : ℚ)
    (exactTerms : List String) : List SearchResult :=
  let p1 := exactPhase collectionId db limit exactTerms
  let p2 := semCandidates.foldl (phase2Step collectionId threshold) p1
  sortByScoreDesc p2.1

/-- The result dict built by `search_elements` for one element candidate. -/
def elemResultOf (collectionId : String) (d : ElemDoc) : SearchResult :=
  { documentId := d.parentDocumentId
    collectionId := collectionId
    rawSimilarity := d.sim
    weightedScore := calculate_relevance_score d.sim
    matchType := "element"
    summary := d.description
    keywords := []
    fileName := d.parentFileName
    storagePath := d.parentStoragePath
    elementId := some d.elemId }

/-- One iteration of the `search_elements` loop: drop a candidate whose
non-null similarity is below the threshold, otherwise append its result. -/
def elemStep (collectionId : String) (threshold : ℚ)
    (acc : List SearchResult) (d : ElemDoc) : List SearchResult :=
  match d.sim with
  | some s => if s < threshold then acc else acc ++ [elemResultOf collectionId d]
  | none => acc ++ [elemResultOf collectionId d]

/-- `search_elements` (search.py): iterate the collection-group vector query's
candidates, drop those whose non-null similarity is below the threshold, score
the rest, and sort by descending weighted score.  `elemCandidates` is what the
`find_nearest(..., limit=limit)` query returns. -/
def search_elements (collectionId : String) (elemCandidates : List ElemDoc)
    (threshold : ℚ) : List SearchResult :=
  sortByScoreDesc (elemCandidates.foldl (elemStep collectionId threshold) [])

/-- The per-document score-tracking entry of `search_collection_debug`
(`doc_scores[doc_id]`): the first-seen document data, the exact terms that
matched, one `(term, similarity, score)` record per individual semantic-term
search that returned the document, and the `(similarity, score)` record of the
full-query search when it returned the document. -/
structure DebugEntry where
  doc : Doc
  exactMatches : List String
  semanticScores : List (String × Option ℚ × ℚ)
  fullQueryScore : Option (Option ℚ × ℚ)
deriving DecidableEq, Repr

/-- `get_or_init_doc` followed by a mutation: apply `f` to the entry for
`d.docId`, initialising it first when absent.  Python dicts preserve insertion
order, so `doc_scores` is an insertion-ordered association list. -/
def updateDebug (scores : List (String × DebugEntry)) (d : Doc)
    (f : DebugEntry → DebugEntry) : List (String × DebugEntry) :=
  if scores.any (fun p => p.1 = d.docId) then
    scores.map (fun p => if p.1 = d.docId then (p.1, f p.2) else p)
  else scores ++ [(d.docId, f ⟨d, [], [], none⟩)]

/-- Debug phase 1: for each exact term, record the matched term on every
document of the keyword query limited to `limit * 2`. -/
def debugExactPhase (db : List Doc) (limit : Nat) (exactTerms : List String)
    (scores : List (String × DebugEntry)) : List (String × DebugEntry) :=
  exactTerms.foldl
    (fun sc term =>
      (keywordQueryRes db term (limit * 2)).foldl
        (fun sc d =>
          updateDebug sc d (fun e => { e with exactMatches := e.exactMatches ++ [term] }))
        sc)
    scores

/-- Debug phase 2: one `find_nearest(..., limit=limit*2)` per semantic term.
`termCandidates` pairs each semantic term with the candidate list its own
query embedding returns; each candidate's `sim` is its distance under that
term's embedding. -/
def debugSemPhase (termCandidates : List (String × List Doc))
    (scores : List (String × DebugEntry)) : List (String × DebugEntry) :=
  termCandidates.foldl
    (fun sc tc =>
      tc.2.foldl
        (fun sc d =>
          updateDebug sc d (fun e =>
            { e with semanticScores :=
                e.semanticScores ++ [(tc.1, d.sim, calculate_relevance_score d.sim)] }))
        sc)
    scores

/-- Debug phase 3: the full-query `find_nearest(..., limit=limit*2)` search;
sets each returned document's `fullQueryScore`. -/
def debugFullPhase (fullCandidates : List Doc)
    (scores : List (String × DebugEntry)) : List (String × DebugEntry) :=
  fullCandidates.foldl
    (fun sc d =>
      updateDebug sc d (fun e =>
        { e with fullQueryScore := some (d.sim, calculate_relevance_score d.sim) }))
    scores

/-- The `best_score` / `match_type` computation of debug phase 4: seed with
`(0.95, "exact")` when any exact term matched, else `(0.0, "semantic")`, then
let any strictly larger per-term semantic score and then the full-query score
replace the score. -/
def debugBestScore (e : DebugEntry) : ℚ × String :=
  let b0 : ℚ × String := if e.exactMatches ≠ [] then (19/20, "exact") else (0, "semantic")
  let b1 := e.semanticScores.foldl (fun b s => if b < s.2.2 then s.2.2 else b) b0.1
  let b2 :=
    match e.fullQueryScore with
    | some p => if b1 < p.2 then p.2 else b1
    | none => b1
  (b2, b0.2)

/-- The result dict built in debug phase 4 for one surviving document
(`rawSimilarity` is the full-query similarity when that search returned the
document, else null). -/
def debugResultOf (collectionId : String) (e : DebugEntry) : SearchResult :=
  { documentId := e.doc.docId
    collectionId := collectionId
    rawSimilarity :=
      match e.fullQueryScore with
      | some p => p.1
      | none => none
    weightedScore := (debugBestScore e).1
    matchType := (debugBestScore e).2
    summary := e.doc.summary
    keywords := e.doc.keywords
    fileName := e.doc.fileName
    storagePath := e.doc.storagePath }

/-- One iteration of debug phase 4: drop the entry when its best score is
below the threshold and it is not an exact match, otherwise append its
result. -/
def debugPhase4Step (collectionId : String) (threshold : ℚ)
    (acc : List SearchResult) (p : String × DebugEntry) : List SearchResult :=
  if (debugBestScore p.2).1 < threshold ∧ (debugBestScore p.2).2 ≠ "exact" then acc
  else acc ++ [debugResultOf collectionId p.2]

/-- Debug phase 4 (search.py lines 631-670): iterate `doc_scores` in insertion
order, drop entries whose best score is below the threshold unless they are
exact matches, and build the result dicts (before the final sort and
truncation). -/
def debugPhase4 (collectionId : String) (threshold : ℚ)
    (scores : List (String × DebugEntry)) : List SearchResult :=
  scores.foldl (debugPhase4Step collectionId threshold) []

/-- `search_collection_debug`: the four phases, then sort by descending
weighted score and truncate to `limit`. -/
def search_collection_debug (collectionId : String) (db : List Doc)
    (termCandidates : List (String × List Doc)) (fullCandidates : List Doc)
    (limit : Nat) (threshold : ℚ) (exactTerms : List String) : List SearchResult :=
  let s1 := debugExactPhase db limit exactTerms []
  let s2 := debugSemPhase termCandidates s1
  let s3 := debugFullPhase fullCandidates s2
  (sortByScoreDesc (debugPhase4 collectionId threshold s3)).take limit

/-- The classification dict returned by `classify_query`, restricted to the
keys the search path reads. -/
structure Classification where
  primary_collection : String
  secondary_collections : List String
  secondary_confidence : ℚ
  exact_match_terms : List String
  semantic_search_terms : List String
deriving DecidableEq, Repr

/-- The errors the search entry point can raise. -/
inductive SearchError where
  | invalidArgument (msg : String)
  | missingApiKey
  | modelCallFailed (msg : String)
  | parseFailure
deriving DecidableEq, Repr

/-- The markdown-code-fence stripping applied to model responses
(`if response_text.startswith("```"): drop the first and last line`). -/
def stripFences (s : String) : String :=
  if s.startsWith "```" then String.intercalate "\n" (((s.splitOn "\n").drop 1).dropLast)
  else s

/-- `classify_query`: raises when `GEMINI_API_KEY` is absent, propagates a
failed model call, strips code fences from the response text and propagates a
JSON-parse failure; only a successfully parsed response yields a
classification.  `callResult` is the outcome of the
`client.models.generate_content` call (its `.text`), `parse` models
`json.loads` returning `none` when the text is not valid JSON for a
classification. -/
def classify_query (apiKey : Option String) (callResult : Except String String)
    (parse : String → Option Classification) : Except SearchError Classification :=
  match apiKey with
  | none => .error .missingApiKey
  | some _ =>
    match callResult with
    | .error msg => .error (.modelCallFailed msg)
    | .ok text =>
      match parse (stripFences text.trim) with
      | none => .error .parseFailure
      | some c => .ok c

/-- The reranking model's parsed JSON response, restricted to the keys
`rerank_results` reads: `ranked_indices` (JSON integers, so possibly
negative), `explanations` keyed by the decimal string of an index, and
`confidence`. -/
structure RerankResponse where
  ranked_indices : List Int
  explanations : List (String × String)
  confidence : ℚ
deriving DecidableEq, Repr

/-- Python list indexing `results[i]`: valid for `-n ≤ i < n` (negative
indices count from the end), `none` models the `IndexError`. -/
def pyIdx (n : Nat) (i : Int) : Option Nat :=
  if 0 ≤ i then (if i < (n : Int) then some i.toNat else none)
  else (if (n : Int) + i < 0 then none else some ((n : Int) + i).toNat)

/-- The reorder loop of `rerank_results`
(`for new_rank, original_idx in enumerate(ranked_indices)`): skip an index
that is `>= len(results)` or already seen, otherwise record it as seen and
append a copy of `results[original_idx]` annotated with its rerank position
(the enumerate counter), original position and explanation.  `none` models an
`IndexError` escaping to the surrounding `except` (an index `< -len(results)`
passes the guard but fails the access). -/
def rerankPick (results : List SearchResult) (explan : List (String × String)) :
    List Int → Nat → List SearchResult → List Int →
    Option (List SearchResult × List Int)
  | [], _, out, seen => some (out, seen)
  | idx :: rest, rank, out, seen =>
    if (results.length : Int) ≤ idx ∨ idx ∈ seen then
      rerankPick results explan rest (rank + 1) out seen
    else
      match pyIdx results.length idx with
      | none => none
      | some k =>
        match results[k]? with
        | none => none
        | some r =>
          rerankPick results explan rest (rank + 1)
            (out ++ [{ r with
                rerankPosition := some rank
                originalPosition := some idx
                rerankExplanation := explan.lookup (toString idx) }])
            (seen ++ [idx])

/-- A default result record (for the total modelling of `results[i]`). -/
def dfltResult : SearchResult :=
  { documentId := ""
    collectionId := ""
    rawSimilarity := none
    weightedScore := 0
    matchType := "" }

/-- The safety loop of `rerank_results`
(`for i, result in enumerate(results): if i not in seen_indices: append`):
append every result whose (non-negative) position was not consumed by the
reorder loop, in original order, annotated with its append position and
original position. -/
def rerankAppendRest (results : List SearchResult) (seen : List Int)
    (out : List SearchResult) : List SearchResult :=
  (List.range results.length).foldl
    (fun acc i =>
      if Int.ofNat i ∈ seen then acc
      else acc ++ [{ results.getD i dfltResult with
          rerankPosition := some acc.length
          originalPosition := some (Int.ofNat i) }])
    out

/-- The combined (reorder + append) output of `rerank_results` before the
final truncation to `limit`; `none` models an exception inside the `try`
block. -/
def rerankCombined (results : List SearchResult) (resp : RerankResponse) :
    Option (List SearchResult) :=
  match rerankPick results resp.explanations resp.ranked_indices 0 [] [] with
  | none => none
  | some (out, seen) => some (rerankAppendRest results seen out)

/-- `rerank_results` (reranking.py): empty input is returned as is; a missing
API key, a failed model call, an unparseable response, or any exception inside
the `try` block (e.g. an `IndexError` from the reorder loop) falls back to the
input order truncated to `limit`; otherwise the combined reorder is truncated
to `limit`. -/
def rerank_results (apiKey : Option String) (callOutcome : Except String String)
    (parse : String → Option RerankResponse) (results : List SearchResult)
    (limit : Nat) : List SearchResult :=
  if results.isEmpty then results
  else
    match apiKey with
    | none => results.take limit
    | some _ =>
      match callOutcome with
      | .error _ => results.take limit
      | .ok text =>
        match parse (stripFences text.trim) with
        | none => results.take limit
        | some resp =>
          match rerankCombined results resp with
          | none => results.take limit
          | some combined => combined.take limit

/-- The external world of one `classify_and_search` request: the schema
documents (only their count matters to control flow), the `GEMINI_API_KEY`
secret, the outcome and parse of the classification model call, the Firestore
collections (`docDb`), the candidate lists returned by every vector query
(standard semantic per collection and limit, element pool per collection and
limit, debug per-term and full-query per collection and limit), and the
outcome and parse of the reranking model call. -/
structure Env where
  schemas : List Unit
  apiKey : Option String
  classifyCall : Except String String
  parseClassify : String → Option Classification
  docDb : String → List Doc
  semCand : String → Nat → List Doc
  elemCand : String → Nat → List ElemDoc
  dbgSemCand : String → String → Nat → List Doc
  dbgFullCand : String → Nat → List Doc
  rerankCall : Except String String
  parseRerank : String → Option RerankResponse

/-- `search_collection`: dispatch to debug mode, else the standard two-phase
search.  In standard mode the semantic query text (joined semantic terms, or
the full query) only determines the query embedding, which is external; the
resulting candidate list is `env.semCand collectionId limit`. -/
def search_collection (env : Env) (collectionId : String) (limit : Nat)
    (threshold : ℚ) (exactTerms semanticTerms : List String)
    (debugMode : Bool) : List SearchResult :=
  if debugMode then
    search_collection_debug collectionId (env.docDb collectionId)
      (semanticTerms.map (fun t => (t, env.dbgSemCand collectionId t (limit * 2))))
      (env.dbgFullCand collectionId (limit * 2)) limit threshold exactTerms
  else
    searchCollectionStd collectionId (env.docDb collectionId)
      (env.semCand collectionId limit) limit threshold exactTerms

/-- The response payload of `classify_and_search` (the wall-clock
`searchTimeMs` field is not modelled). -/
structure SearchResponse where
  results : List SearchResult
  classification : Option Classification
  collectionsSearched : List String
  totalCandidates : Nat
  rerankApplied : Bool
deriving DecidableEq, Repr

/-- One iteration of the secondary-collection loop of `classify_and_search`:
search the secondary collection with half the limit, search its element pool
with a quarter of the limit, extend the result list and record the collection
id in `collections_searched`. -/
def secondaryStep (env : Env) (limit : Nat) (threshold : ℚ)
    (exactTerms semTerms : List String) (debugMode : Bool)
    (acc : List SearchResult × List String) (sid : String) :
    List SearchResult × List String :=
  let secLimit := limit / 2
  let sres := search_collection env sid secLimit threshold exactTerms semTerms debugMode
  let eres := search_elements sid (env.elemCand sid (secLimit / 2)) threshold
  (acc.1 ++ sres ++ eres, acc.2 ++ [sid])

/-- The final stage of `classify_and_search`: rerank when reranking is
enabled and more than one result exists (`if results and enable_rerank and
len(results) > 1`), else truncate to `limit`; the boolean is
`rerank_applied`. -/
def finalResults (env : Env) (limit : Nat) (enableRerank : Bool)
    (sorted : List SearchResult) : List SearchResult × Bool :=
  if ¬sorted.isEmpty ∧ enableRerank ∧ 1 < sorted.length then
    (rerank_results env.apiKey env.rerankCall env.parseRerank sorted limit, true)
  else (sorted.take limit, false)

/-- `classify_and_search` (search.py): validate the query, early-return on an
empty schema set, classify (propagating classification errors), search the
primary collection and its element pool, search each secondary collection and
its element pool only when the aggregate secondary confidence exceeds `0.3`,
sort everything by descending weighted score, then either rerank (when
enabled and more than one result) or truncate to `limit`. -/
def classify_and_search (env : Env) (query : String) (limit : Nat)
    (threshold : ℚ) (enableRerank debugMode : Bool) :
    Except SearchError SearchResponse :=
  if query = "" then .error (.invalidArgument "Query is required")
  else if env.schemas.isEmpty then
    .ok { results := [], classification := none, collectionsSearched := [],
          totalCandidates := 0, rerankApplied := false }
  else
    match classify_query env.apiKey env.classifyCall env.parseClassify with
    | .error e => .error e
    | .ok c =>
      let exactTerms := c.exact_match_terms
      let semTerms := c.semantic_search_terms
      let primaryResults :=
        search_collection env c.primary_collection limit threshold
          exactTerms semTerms debugMode
      let primaryElems :=
        search_elements c.primary_collection
          (env.elemCand c.primary_collection (limit / 2)) threshold
      let base := primaryResults ++ primaryElems
      let searched :=
        if c.secondary_confidence > 3/10 then
          c.secondary_collections.foldl
            (secondaryStep env limit threshold exactTerms semTerms debugMode)
            (base, [c.primary_collection])
        else (base, [c.primary_collection])
      let sorted := sortByScoreDesc searched.1
      let final := finalResults env limit enableRerank sorted
      .ok { results := final.1, classification := some c,
            collectionsSearched := searched.2,
            totalCandidates := final.1.length, rerankApplied := final.2 }

instance {ε α : Type} [DecidableEq ε] [DecidableEq α] : DecidableEq (Except ε α) := fun a b =>
  match a, b with
  | .ok x, .ok y =>
      if h : x = y then isTrue (by rw [h]) else isFalse (fun hh => h (by cases hh; rfl))
  | .error x, .error y =>
      if h : x = y then isTrue (by rw [h]) else isFalse (fun hh => h (by cases hh; rfl))
  | .ok _, .error _ => isFalse (by intro h; cases h)
  | .error _, .ok _ => isFalse (by intro h; cases h)

/-- Erase the annotations that `rerank_results` adds to a result copy, so that
reranked output can be compared with the input result set. -/
def stripRerank (r : SearchResult) : SearchResult :=
  { r with rerankPosition := none, originalPosition := none, rerankExplanation := none }

/-- Modelled from the spec: "Maps a similarity measured in a narrow practical
band (empirically 0.25-0.75 ...) linearly onto [0,1], clamping outside that
band" — the linear map of `[0.25, 0.75]` onto `[0, 1]`, clamped to `[0, 1]`. -/
def specBandScore (s : ℚ) : ℚ :=
  max 0 (min 1 ((s - 1/4) / (3/4 - 1/4)))

/-- The ordering property claimed for standard mode, adjusted for scores: a
semantic result with weighted score at most `0.95` never precedes an exact
result. -/
def semBeforeExactOK (a b : SearchResult) : Prop :=
  ¬(a.matchType = "semantic" ∧ a.weightedScore ≤ 19/20 ∧ b.matchType = "exact")

/-- Concrete input (C1/C3/C5 counterexamples): a document carrying keyword
"X", with no vector similarity. -/
def cxDocX : Doc := { docId := "a", keywords := ["X"], sim := none }

/-- Concrete input: a document with similarity `0.8`, which the relevance
scorer maps to `1.0 > 0.95`. -/
def cxDocHigh : Doc := { docId := "b", keywords := [], sim := some (4/5) }

/-- Concrete input (C3): a second keyword document. -/
def cxDocY : Doc := { docId := "b", keywords := ["Y"], sim := none }

/-- Concrete input (C3): a semantic candidate above the threshold. -/
def cxDocMid : Doc := { docId := "c", keywords := [], sim := some (1/2) }

/-- Concrete input (C5): a document matching exact term "X" whose per-term
semantic similarity `0.8` scores `1.0`. -/
def cxDocBoth : Doc := { docId := "a", keywords := ["X"], sim := some (4/5) }

/-- A plain result carrying only an identifying document id (rerank tests). -/
def plainResult (s : String) : SearchResult :=
  { documentId := s, collectionId := "c", rawSimilarity := none,
    weightedScore := 0, matchType := "semantic" }

/-- Concrete input (C4): five reranker input results. -/
def c4five : List SearchResult :=
  [plainResult "r0", plainResult "r1", plainResult "r2", plainResult "r3", plainResult "r4"]

/-- Concrete input (C4): the spec scenario's model response
`ranked_indices=[2,0]`. -/
def c4resp : RerankResponse :=
  { ranked_indices := [2, 0], explanations := [], confidence := 1/2 }

/-- Concrete input (C4 counterexample): two reranker input results. -/
def c4two : List SearchResult := [plainResult "a", plainResult "b"]

/-- Concrete input (C4 counterexample): a model response containing the
negative index `-1`, which Python accepts as an index from the end. -/
def c4negResp : RerankResponse :=
  { ranked_indices := [-1], explanations := [], confidence := 1/2 }

/-- Concrete input (C7/C3/C8 witnesses): a classification with secondary
confidence `0.25`, below the `0.3` cutoff. -/
def wCls : Classification :=
  { primary_collection := "alpha", secondary_collections := ["beta"],
    secondary_confidence := 1/4, exact_match_terms := [], semantic_search_terms := [] }

/-- Concrete input (C7/C3 witnesses): an environment with one schema, a
working classification call and empty collections. -/
def wEnv : Env :=
  { schemas := [()], apiKey := some "k", classifyCall := .ok "x",
    parseClassify := fun _ => some wCls,
    docDb := fun _ => [], semCand := fun _ _ => [], elemCand := fun _ _ => [],
    dbgSemCand := fun _ _ _ => [], dbgFullCand := fun _ _ => [],
    rerankCall := .ok "y", parseRerank := fun _ => none }

/-- The response `classify_and_search` computes on `wEnv`. -/
def wResp : SearchResponse :=
  { results := [], classification := some wCls, collectionsSearched := ["alpha"],
    totalCandidates := 0, rerankApplied := false }

/-- Concrete input (C8 witness): same environment with the API key absent. -/
def wEnvNoKey : Env := { wEnv with apiKey := none }

/-- Concrete input (C10 witness): a semantic candidate whose
`vector_distance` is missing. -/
def w10Doc : Doc := { docId := "n", keywords := [], sim := none }

/-- Concrete input (C10 witness): an element candidate whose
`vector_distance` is missing. -/
def w10Elem : ElemDoc := { elemId := "e1", parentDocumentId := "p", sim := none }

/-- Concrete input (C5 witness): a debug entry with one exact match and a
semantic score of `1.0`. -/
def w5Entry : DebugEntry :=
  { doc := cxDocBoth, exactMatches := ["X"],
    semanticScores := [("t", some (4/5), 1)], fullQueryScore := none }

/- ===================== helper lemmas ===================== -/

theorem foldl_preserve {σ ι : Type} (step : σ → ι → σ) (P : σ → Prop)
    (h : ∀ s b, P s → P (step s b)) :
    ∀ (l : List ι) (s : σ), P s → P (l.foldl step s)
  | [], _, hs => hs
  | b :: l, s, hs => foldl_preserve step P h l (step s b) (h s b hs)

theorem sortByScoreDesc_perm (l : List SearchResult) : (sortByScoreDesc l).Perm l :=
  List.perm_insertionSort scoreGE l

theorem mem_sortByScoreDesc {a : SearchResult} {l : List SearchResult} :
    a ∈ sortByScoreDesc l ↔ a ∈ l :=
  (sortByScoreDesc_perm l).mem_iff

theorem sortByScoreDesc_sorted (l : List SearchResult) :
    List.Sorted scoreGE (sortByScoreDesc l) :=
  List.sorted_insertionSort scoreGE l

theorem rel_score_linear (s : ℚ) : (s - 1/4) / (1/2) = 2 * s - 1/2 := by ring

theorem pairwise_sbe_orderedInsert (x : SearchResult) :
    ∀ (m : List SearchResult),
    (x.matchType = "exact" → x.weightedScore = 19/20) →
    (x.matchType = "semantic" → ∀ y ∈ m, y.matchType ≠ "exact") →
    List.Pairwise semBeforeExactOK m →
    List.Pairwise semBeforeExactOK (List.orderedInsert scoreGE x m)
  | [], _, _, _ => by simp [List.orderedInsert, semBeforeExactOK]
  | y :: m, hx, hm, hp => by
    by_cases hins : scoreGE x y
    · simp only [List.orderedInsert, if_pos hins]
      refine List.Pairwise.cons ?_ hp
      rintro z hz ⟨hxs, _, hze⟩
      exact hm hxs z hz hze
    · simp only [List.orderedInsert, if_neg hins]
      rcases List.pairwise_cons.1 hp with ⟨hy, hp'⟩
      refine List.pairwise_cons.2 ⟨?_, ?_⟩
      · intro z hz
        rcases (List.mem_orderedInsert scoreGE).1 hz with rfl | hz'
        · rintro ⟨_, hyle, hze⟩
          have hxw : z.weightedScore = 19/20 := hx hze
          have hlt : ¬(y.weightedScore ≤ z.weightedScore) := hins
          rw [hxw] at hlt
          exact hlt hyle
        · exact hy z hz'
      · exact pairwise_sbe_orderedInsert x m hx
          (fun hs y' hy' => hm hs y' (List.mem_cons_of_mem _ hy')) hp'

theorem pairwise_sbe_sort :
    ∀ (l : List SearchResult),
    (∀ x ∈ l, x.matchType = "exact" → x.weightedScore = 19/20) →
    List.Pairwise (fun a b => a.matchType = "semantic" → b.matchType ≠ "exact") l →
    List.Pairwise semBeforeExactOK (sortByScoreDesc l)
  | [], _, _ => by simp [sortByScoreDesc, List.insertionSort]
  | x :: l, hsc, hq => by
    have hrec := pairwise_sbe_sort l
      (fun y hy => hsc y (List.mem_cons_of_mem _ hy)) (List.pairwise_cons.1 hq).2
    show List.Pairwise semBeforeExactOK
      (List.orderedInsert scoreGE x (List.insertionSort scoreGE l))
    exact pairwise_sbe_orderedInsert x _
      (hsc x (List.mem_cons_self _ _))
      (fun hs y hy => (List.pairwise_cons.1 hq).1 y
        ((List.perm_insertionSort scoreGE l).mem_iff.1 hy) hs)
      hrec

theorem exactPhase_results_prop (cid : String) (db : List Doc) (limit : Nat)
    (terms : List String) :
    ∀ r ∈ (exactPhase cid db limit terms).1,
      r.matchType = "exact" ∧ r.weightedScore = 19/20 := by
  unfold exactPhase
  refine foldl_preserve _
    (fun acc : List SearchResult × List String =>
      ∀ r ∈ acc.1, r.matchType = "exact" ∧ r.weightedScore = 19/20)
    ?_ terms ([], []) (by simp)
  intro s term hs
  refine foldl_preserve (phase1Step cid)
    (fun acc : List SearchResult × List String =>
      ∀ r ∈ acc.1, r.matchType = "exact" ∧ r.weightedScore = 19/20)
    ?_ (keywordQueryRes db term limit) s hs
  intro s' d hs' r hr
  unfold phase1Step at hr
  by_cases hd : d.docId ∈ s'.2
  · rw [if_pos hd] at hr; exact hs' r hr
  · rw [if_neg hd] at hr
    rcases List.mem_append.1 hr with h | h
    · exact hs' r h
    · rcases List.mem_singleton.1 h with rfl
      exact ⟨rfl, rfl⟩

theorem phase2Step_cases (cid : String) (th : ℚ)
    (acc : List SearchResult × List String) (d : Doc) :
    phase2Step cid th acc d = acc ∨
    phase2Step cid th acc d = (acc.1 ++ [semResultOf cid d], acc.2 ++ [d.docId]) := by
  by_cases hd : d.docId ∈ acc.2
  · left; simp [phase2Step, hd]
  · cases hs : d.sim with
    | some s =>
      by_cases hth : s < th
      · left; simp [phase2Step, hd, hs, hth]
      · right; simp [phase2Step, hd, hs, hth]
    | none => right; simp [phase2Step, hd, hs]

theorem semPhase_append (cid : String) (th : ℚ) :
    ∀ (l : List Doc) (acc : List SearchResult × List String),
    ∃ t, (l.foldl (phase2Step cid th) acc).1 = acc.1 ++ t ∧
      ∀ r ∈ t, r.matchType = "semantic"
  | [], acc => ⟨[], by simp, by simp⟩
  | d :: l, acc => by
    rcases semPhase_append cid th l (phase2Step cid th acc d) with ⟨t, ht, hts⟩
    rw [List.foldl_cons]
    rcases phase2Step_cases cid th acc d with he | he
    · rw [he] at ht ⊢
      exact ⟨t, ht, hts⟩
    · rw [he] at ht ⊢
      refine ⟨semResultOf cid d :: t, ?_, ?_⟩
      · rw [ht]; simp
      · intro r hr
        rcases List.mem_cons.1 hr with rfl | hr'
        · rfl
        · exact hts r hr'

theorem searchCollectionStd_eq (cid : String) (db : List Doc)
    (semCandidates : List Doc) (limit : Nat) (th : ℚ) (exactTerms : List String) :
    searchCollectionStd cid db semCandidates limit th exactTerms =
      sortByScoreDesc
        ((semCandidates.foldl (phase2Step cid th)
          (exactPhase cid db limit exactTerms)).1) := rfl

theorem preSort_exact_score (cid : String) (db : List Doc)
    (semCandidates : List Doc) (limit : Nat) (th : ℚ) (exactTerms : List String) :
    ∀ x ∈ (semCandidates.foldl (phase2Step cid th)
        (exactPhase cid db limit exactTerms)).1,
      x.matchType = "exact" → x.weightedScore = 19/20 := by
  rcases semPhase_append cid th semCandidates (exactPhase cid db limit exactTerms)
    with ⟨t, ht, hts⟩
  rw [ht]
  intro x hx hxe
  rcases List.mem_append.1 hx with h | h
  · exact (exactPhase_results_prop cid db limit exactTerms x h).2
  · rw [hts x h] at hxe
    exact absurd hxe (by decide)

/-- C2: `calculate_relevance_score` equals the clamped linear map of the band
`[0.25, 0.75]` onto `[0, 1]` written from the spec (`specBandScore`); it is
`0` strictly below the band, `1` strictly above it, monotone non-decreasing
everywhere, and `0` on a null similarity. -/
theorem C2_relevance_score_band :
    calculate_relevance_score none = 0 ∧
    (∀ s : ℚ, calculate_relevance_score (some s) = specBandScore s) ∧
    (∀ s : ℚ, s < 1/4 → calculate_relevance_score (some s) = 0) ∧
    (∀ s : ℚ, 3/4 < s → calculate_relevance_score (some s) = 1) ∧
    (∀ s t : ℚ, s ≤ t →
      calculate_relevance_score (some s) ≤ calculate_relevance_score (some t)) := by
  refine ⟨rfl, ?_, ?_, ?_, ?_⟩
  · intro s
    show max 0 (min 1 ((s - 1/4) / (1/2))) = max 0 (min 1 ((s - 1/4) / (3/4 - 1/4)))
    norm_num
  · intro s hs
    show max 0 (min 1 ((s - 1/4) / (1/2))) = 0
    rw [rel_score_linear, min_eq_right (by linarith)]
    exact max_eq_left (by linarith)
  · intro s hs
    show max 0 (min 1 ((s - 1/4) / (1/2))) = 1
    rw [rel_score_linear, min_eq_left (by linarith)]
    exact max_eq_right (by norm_num)
  · intro s t hst
    show max 0 (min 1 ((s - 1/4) / (1/2))) ≤ max 0 (min 1 ((t - 1/4) / (1/2)))
    rw [rel_score_linear, rel_score_linear]
    exact max_le_max le_rfl (min_le_min le_rfl (by linarith))

/-- C2 witness: the band bounds and monotonicity at concrete similarities. -/
theorem C2_relevance_score_band_witness :
    ((1/8 : ℚ) < 1/4 ∧ calculate_relevance_score (some (1/8)) = 0) ∧
    ((3/4 : ℚ) < 9/10 ∧ calculate_relevance_score (some (9/10)) = 1) ∧
    ((1/3 : ℚ) ≤ 1/2 ∧
      calculate_relevance_score (some (1/3)) ≤ calculate_relevance_score (some (1/2))) :=
  ⟨⟨by norm_num, C2_relevance_score_band.2.2.1 _ (by norm_num)⟩,
    ⟨by norm_num, C2_relevance_score_band.2.2.2.1 _ (by norm_num)⟩,
    ⟨by norm_num, C2_relevance_score_band.2.2.2.2 _ _ (by norm_num)⟩⟩

/-- C1 (amended): in standard mode every exact result carries weighted score
exactly `0.95`, and every exact result precedes every semantic result whose
weighted score is at most `0.95` (equivalently: a semantic result can precede
an exact result only with weighted score strictly above `0.95`). -/
theorem C1_exact_score_and_order (cid : String) (db : List Doc)
    (semCandidates : List Doc) (limit : Nat) (th : ℚ) (exactTerms : List String) :
    (∀ r ∈ searchCollectionStd cid db semCandidates limit th exactTerms,
      r.matchType = "exact" → r.weightedScore = 19/20) ∧
    List.Pairwise semBeforeExactOK
      (searchCollectionStd cid db semCandidates limit th exactTerms) := by
  rw [searchCollectionStd_eq]
  have hsc := preSort_exact_score cid db semCandidates limit th exactTerms
  constructor
  · intro r hr
    exact hsc r (mem_sortByScoreDesc.1 hr)
  · apply pairwise_sbe_sort _ hsc
    rcases semPhase_append cid th semCandidates (exactPhase cid db limit exactTerms)
      with ⟨t, ht, hts⟩
    rw [ht, List.pairwise_append]
    have hp1 := exactPhase_results_prop cid db limit exactTerms
    refine ⟨List.pairwise_of_forall_mem_list ?_, List.pairwise_of_forall_mem_list ?_, ?_⟩
    · intro a ha b _ has
      exact absurd ((hp1 a ha).1.symm.trans has) (by decide)
    · intro a _ b hb _
      rw [hts b hb]; decide
    · intro a _ b hb _
      rw [hts b hb]; decide

/-- C1 counterexample: with one exact keyword match and one semantic
candidate of similarity `0.8` (score `1.0`), the sorted output places the
semantic result before the exact one, so exact results do not always precede
semantic results (the exact score is still `0.95`). -/
theorem C1_counterexample :
    ((searchCollectionStd "c" [cxDocX, cxDocHigh] [cxDocHigh] 10 (3/10) ["X"]).map
      (fun r => (r.matchType, r.weightedScore))) = [("semantic", 1), ("exact", 19/20)] ∧
    ¬ List.Pairwise (fun a b => ¬(a.matchType = "semantic" ∧ b.matchType = "exact"))
      (searchCollectionStd "c" [cxDocX, cxDocHigh] [cxDocHigh] 10 (3/10) ["X"]) := by
  constructor
  · with_unfolding_all decide
  · with_unfolding_all decide

theorem idsInvariant_phase1Step (cid : String)
    (acc : List SearchResult × List String) (d : Doc)
    (h : acc.1.map (fun r => r.documentId) = acc.2 ∧ acc.2.Nodup) :
    (phase1Step cid acc d).1.map (fun r => r.documentId) = (phase1Step cid acc d).2 ∧
      (phase1Step cid acc d).2.Nodup := by
  unfold phase1Step
  by_cases hd : d.docId ∈ acc.2
  · rw [if_pos hd]; exact h
  · rw [if_neg hd]
    constructor
    · simp [h.1, exactResultOf]
    · simp [List.nodup_append, h.2, hd]

theorem idsInvariant_phase2Step (cid : String) (th : ℚ)
    (acc : List SearchResult × List String) (d : Doc)
    (h : acc.1.map (fun r => r.documentId) = acc.2 ∧ acc.2.Nodup) :
    (phase2Step cid th acc d).1.map (fun r => r.documentId) = (phase2Step cid th acc d).2 ∧
      (phase2Step cid th acc d).2.Nodup := by
  rcases phase2Step_cases cid th acc d with he | he <;> rw [he]
  · exact h
  · by_cases hd : d.docId ∈ acc.2
    · exfalso
      have : phase2Step cid th acc d = acc := by simp [phase2Step, hd]
      rw [this] at he
      have : acc.2 = acc.2 ++ [d.docId] := congrArg Prod.snd he
      simpa using congrArg List.length this
    · constructor
      · simp [h.1, semResultOf]
      · simp [List.nodup_append, h.2, hd]

/-- C6: in standard mode no document id appears twice in the returned list;
in particular an id returned by the exact phase is never also returned as a
semantic result of the same call. -/
theorem C6_no_duplicate_ids (cid : String) (db : List Doc)
    (semCandidates : List Doc) (limit : Nat) (th : ℚ) (exactTerms : List String) :
    ((searchCollectionStd cid db semCandidates limit th exactTerms).map
      (fun r => r.documentId)).Nodup := by
  rw [searchCollectionStd_eq]
  have hperm := (sortByScoreDesc_perm
    ((semCandidates.foldl (phase2Step cid th) (exactPhase cid db limit exactTerms)).1)).map
    (fun r => r.documentId)
  rw [hperm.nodup_iff]
  have hinv : ((semCandidates.foldl (phase2Step cid th)
        (exactPhase cid db limit exactTerms)).1.map (fun r => r.documentId)) =
      (semCandidates.foldl (phase2Step cid th) (exactPhase cid db limit exactTerms)).2 ∧
      (semCandidates.foldl (phase2Step cid th) (exactPhase cid db limit exactTerms)).2.Nodup := by
    refine foldl_preserve (phase2Step cid th)
      (fun acc : List SearchResult × List String =>
        acc.1.map (fun r => r.documentId) = acc.2 ∧ acc.2.Nodup)
      (fun s b hs => idsInvariant_phase2Step cid th s b hs) semCandidates _ ?_
    unfold exactPhase
    refine foldl_preserve _
      (fun acc : List SearchResult × List String =>
        acc.1.map (fun r => r.documentId) = acc.2 ∧ acc.2.Nodup)
      ?_ exactTerms ([], []) (by simp)
    intro s term hs
    exact foldl_preserve (phase1Step cid)
      (fun acc : List SearchResult × List String =>
        acc.1.map (fun r => r.documentId) = acc.2 ∧ acc.2.Nodup)
      (fun s' b hs' => idsInvariant_phase1Step cid s' b hs')
      (keywordQueryRes db term limit) s hs
  rw [hinv.1]
  exact hinv.2

theorem phase1Step_len (cid : String) (acc : List SearchResult × List String) (d : Doc) :
    (phase1Step cid acc d).1.length ≤ acc.1.length + 1 := by
  unfold phase1Step
  by_cases hd : d.docId ∈ acc.2
  · rw [if_pos hd]; omega
  · rw [if_neg hd]; simp

theorem foldl_phase1_len (cid : String) :
    ∀ (ds : List Doc) (acc : List SearchResult × List String),
    ((ds.foldl (phase1Step cid) acc).1).length ≤ acc.1.length + ds.length
  | [], acc => by simp
  | d :: ds, acc => by
    rw [List.foldl_cons]
    calc ((ds.foldl (phase1Step cid) (phase1Step cid acc d)).1).length
        ≤ (phase1Step cid acc d).1.length + ds.length := foldl_phase1_len cid ds _
      _ ≤ (acc.1.length + 1) + ds.length :=
          Nat.add_le_add_right (phase1Step_len cid acc d) _
      _ = acc.1.length + (d :: ds).length := by simp [List.length_cons]; omega

theorem exactPhase_len (cid : String) (db : List Doc) (limit : Nat) :
    ∀ (terms : List String) (acc : List SearchResult × List String),
    ((terms.foldl
      (fun acc term => (keywordQueryRes db term limit).foldl (phase1Step cid) acc)
      acc).1).length ≤ acc.1.length + limit * terms.length
  | [], acc => by simp
  | t :: ts, acc => by
    rw [List.foldl_cons]
    have h1 : ((keywordQueryRes db t limit).foldl (phase1Step cid) acc).1.length
        ≤ acc.1.length + limit := by
      refine le_trans (foldl_phase1_len cid _ acc) ?_
      have h2 : (keywordQueryRes db t limit).length ≤ limit :=
        List.length_take_le _ _
      omega
    calc ((ts.foldl _ ((keywordQueryRes db t limit).foldl (phase1Step cid) acc)).1).length
        ≤ ((keywordQueryRes db t limit).foldl (phase1Step cid) acc).1.length
            + limit * ts.length := exactPhase_len cid db limit ts _
      _ ≤ (acc.1.length + limit) + limit * ts.length := Nat.add_le_add_right h1 _
      _ = acc.1.length + limit * (t :: ts).length := by
          rw [List.length_cons]; ring

theorem phase2Step_len (cid : String) (th : ℚ)
    (acc : List SearchResult × List String) (d : Doc) :
    (phase2Step cid th acc d).1.length ≤ acc.1.length + 1 := by
  rcases phase2Step_cases cid th acc d with he | he <;> rw [he]
  · omega
  · simp

theorem foldl_phase2_len (cid : String) (th : ℚ) :
    ∀ (ds : List Doc) (acc : List SearchResult × List String),
    ((ds.foldl (phase2Step cid th) acc).1).length ≤ acc.1.length + ds.length
  | [], acc => by simp
  | d :: ds, acc => by
    rw [List.foldl_cons]
    calc ((ds.foldl (phase2Step cid th) (phase2Step cid th acc d)).1).length
        ≤ (phase2Step cid th acc d).1.length + ds.length := foldl_phase2_len cid th ds _
      _ ≤ (acc.1.length + 1) + ds.length :=
          Nat.add_le_add_right (phase2Step_len cid th acc d) _
      _ = acc.1.length + (d :: ds).length := by simp [List.length_cons]; omega

theorem rerank_results_length (apiKey : Option String)
    (callOutcome : Except String String) (parse : String → Option RerankResponse)
    (results : List SearchResult) (limit : Nat) :
    (rerank_results apiKey callOutcome parse results limit).length ≤ limit := by
  unfold rerank_results
  by_cases he : results.isEmpty
  · rw [if_pos he, List.isEmpty_iff.1 he]
    simp
  · rw [if_neg he]
    repeat' split
    all_goals exact List.length_take_le _ _

theorem finalResults_length (env : Env) (limit : Nat) (enableRerank : Bool)
    (sorted : List SearchResult) :
    (finalResults env limit enableRerank sorted).1.length ≤ limit := by
  unfold finalResults
  split
  · exact rerank_results_length _ _ _ _ _
  · exact List.length_take_le _ _

/-- C3 (amended): a single `search_collection` call in standard mode may
return up to `limit` results per exact term plus up to `limit` semantic
results — it applies no overall `limit` truncation — while the top-level
`classify_and_search` response does contain at most `limit` results on both
the rerank and the no-rerank path. -/
theorem C3_result_limits :
    (∀ (cid : String) (db semCandidates : List Doc) (limit : Nat) (th : ℚ)
      (exactTerms : List String),
      semCandidates.length ≤ limit →
      (searchCollectionStd cid db semCandidates limit th exactTerms).length ≤
        limit * (exactTerms.length + 1)) ∧
    (∀ (env : Env) (q : String) (limit : Nat) (th : ℚ) (er dm : Bool)
      (resp : SearchResponse),
      classify_and_search env q limit th er dm = .ok resp →
      resp.results.length ≤ limit) := by
  constructor
  · intro cid db semCandidates limit th exactTerms hsem
    rw [searchCollectionStd_eq]
    rw [(sortByScoreDesc_perm _).length_eq]
    calc ((semCandidates.foldl (phase2Step cid th)
            (exactPhase cid db limit exactTerms)).1).length
        ≤ (exactPhase cid db limit exactTerms).1.length + semCandidates.length :=
          foldl_phase2_len cid th semCandidates _
      _ ≤ (limit * exactTerms.length) + limit := by
          have h1 := exactPhase_len cid db limit exactTerms ([], [])
          simp only [List.length_nil] at h1
          have h2 : (exactPhase cid db limit exactTerms).1.length ≤
              limit * exactTerms.length := by
            unfold exactPhase
            simpa using h1
          omega
      _ = limit * (exactTerms.length + 1) := by ring
  · intro env q limit th er dm resp h
    unfold classify_and_search at h
    by_cases hq : q = ""
    · rw [if_pos hq] at h; cases h
    · rw [if_neg hq] at h
      by_cases hs : env.schemas.isEmpty
      · rw [if_pos hs] at h
        cases h
        simp
      · rw [if_neg hs] at h
        cases hc : classify_query env.apiKey env.classifyCall env.parseClassify with
        | error e => rw [hc] at h; cases h
        | ok c =>
          rw [hc] at h
          dsimp only at h
          cases h
          exact finalResults_length _ _ _ _

/-- C3 counterexample: with `limit = 1`, two exact terms matching two
different documents plus one surviving semantic candidate yield three
results, so `search_collection` does not bound its own output by `limit`. -/
theorem C3_counterexample :
    ¬ ((searchCollectionStd "c" [cxDocX, cxDocY] [cxDocMid] 1 (3/10) ["X", "Y"]).length
      ≤ 1) := by
  with_unfolding_all decide

/-- C3 witness: the per-call bound at a concrete input, and the top-level
bound on a concrete request. -/
theorem C3_result_limits_witness :
    ((List.length [cxDocMid] ≤ 2) ∧
      (searchCollectionStd "c" [] [cxDocMid] 2 (3/10) []).length ≤
        2 * (List.length ([] : List String) + 1)) ∧
    (classify_and_search wEnv "q" 2 (3/10) true false = Except.ok wResp ∧
      wResp.results.length ≤ 2) := by
  refine ⟨⟨by decide, C3_result_limits.1 "c" [] [cxDocMid] 2 (3/10) [] (by decide)⟩,
    ⟨?_, ?_⟩⟩
  · with_unfolding_all decide
  · exact C3_result_limits.2 wEnv "q" 2 (3/10) true false wResp
      (by with_unfolding_all decide)

theorem secondaryStep_foldl_snd (env : Env) (limit : Nat) (th : ℚ)
    (eT sT : List String) (dm : Bool) :
    ∀ (l : List String) (acc : List SearchResult × List String),
    (l.foldl (secondaryStep env limit th eT sT dm) acc).2 = acc.2 ++ l
  | [], acc => by simp
  | sid :: l, acc => by
    rw [List.foldl_cons, secondaryStep_foldl_snd env limit th eT sT dm l _]
    show (acc.2 ++ [sid]) ++ l = acc.2 ++ sid :: l
    simp

/-- C7: secondary collections (with their element pools) are searched exactly
when the classification's aggregate secondary confidence strictly exceeds
`0.3`; with secondary confidence `0.25` only the primary collection appears
in `collectionsSearched`. -/
theorem C7_secondary_confidence_cutoff (env : Env) (q : String) (limit : Nat)
    (th : ℚ) (er dm : Bool) (c : Classification) (resp : SearchResponse)
    (hq : q ≠ "") (hs : ¬env.schemas.isEmpty)
    (hc : classify_query env.apiKey env.classifyCall env.parseClassify = .ok c)
    (h : classify_and_search env q limit th er dm = .ok resp) :
    resp.collectionsSearched =
      c.primary_collection ::
        (if c.secondary_confidence > 3/10 then c.secondary_collections else []) ∧
    (c.secondary_confidence = 1/4 → resp.collectionsSearched = [c.primary_collection]) := by
  have hmain : resp.collectionsSearched =
      c.primary_collection ::
        (if c.secondary_confidence > 3/10 then c.secondary_collections else []) := by
    unfold classify_and_search at h
    rw [if_neg hq, if_neg hs, hc] at h
    dsimp only at h
    cases h
    dsimp only
    by_cases hconf : c.secondary_confidence > 3/10
    · simp only [if_pos hconf, secondaryStep_foldl_snd]
      simp
    · simp only [if_neg hconf]
  refine ⟨hmain, fun h14 => ?_⟩
  rw [hmain, h14, if_neg (by norm_num)]

/-- C7 witness: a classification with secondary confidence `0.25` leads to
`collectionsSearched = ["alpha"]` even though `secondary_collections` is
non-empty. -/
theorem C7_secondary_confidence_cutoff_witness :
    ("q" ≠ "" ∧ wEnv.schemas.isEmpty = false ∧ wCls.secondary_collections ≠ [] ∧
      wCls.secondary_confidence = 1/4 ∧
      classify_query wEnv.apiKey wEnv.classifyCall wEnv.parseClassify = Except.ok wCls ∧
      classify_and_search wEnv "q" 4 (3/10) true false = Except.ok wResp) ∧
    wResp.collectionsSearched = ["alpha"] := by
  have hc : classify_query wEnv.apiKey wEnv.classifyCall wEnv.parseClassify =
      Except.ok wCls := by with_unfolding_all decide
  have h : classify_and_search wEnv "q" 4 (3/10) true false = Except.ok wResp := by
    with_unfolding_all decide
  refine ⟨⟨by decide, by decide, by decide, by with_unfolding_all decide, hc, h⟩, ?_⟩
  exact (C7_secondary_confidence_cutoff wEnv "q" 4 (3/10) true false wCls wResp
    (by decide) (by decide) hc h).2 (by with_unfolding_all decide)

/-- C8: `classify_query` fails when the API key is absent, when the model
call fails, and when the response does not parse; `classify_and_search`
propagates any classification error, so the whole search aborts with no
fallback classification. -/
theorem C8_classification_failure_aborts :
    (∀ (callResult : Except String String) (parse : String → Option Classification),
      classify_query none callResult parse = .error .missingApiKey) ∧
    (∀ (k : String) (parse : String → Option Classification) (m : String),
      classify_query (some k) (Except.error m) parse = .error (.modelCallFailed m)) ∧
    (∀ (k : String) (t : String) (parse : String → Option Classification),
      parse (stripFences t.trim) = none →
      classify_query (some k) (Except.ok t) parse = .error .parseFailure) ∧
    (∀ (env : Env) (q : String) (limit : Nat) (th : ℚ) (er dm : Bool)
      (e : SearchError), q ≠ "" → ¬env.schemas.isEmpty →
      classify_query env.apiKey env.classifyCall env.parseClassify = .error e →
      classify_and_search env q limit th er dm = .error e) := by
  refine ⟨fun _ _ => rfl, fun _ _ _ => rfl, ?_, ?_⟩
  · intro k t parse hp
    unfold classify_query
    dsimp only
    rw [hp]
  · intro env q limit th er dm e hq hs hc
    unfold classify_and_search
    rw [if_neg hq, if_neg hs, hc]

/-- C8 witness: with the API key absent, classification fails and the whole
search aborts with that error. -/
theorem C8_classification_failure_aborts_witness :
    (wEnvNoKey.apiKey = none ∧
      classify_query wEnvNoKey.apiKey wEnvNoKey.classifyCall wEnvNoKey.parseClassify =
        Except.error SearchError.missingApiKey) ∧
    classify_and_search wEnvNoKey "q" 4 (3/10) true false =
      Except.error SearchError.missingApiKey := by
  have h1 : classify_query wEnvNoKey.apiKey wEnvNoKey.classifyCall wEnvNoKey.parseClassify =
      Except.error SearchError.missingApiKey :=
    C8_classification_failure_aborts.1 wEnvNoKey.classifyCall wEnvNoKey.parseClassify
  exact ⟨⟨rfl, h1⟩,
    C8_classification_failure_aborts.2.2.2 wEnvNoKey "q" 4 (3/10) true false
      SearchError.missingApiKey (by decide) (by decide) h1⟩

/-- C9: `rerank_results` fails open — with an absent API key, a failed model
call, or an unparseable response it returns the input order truncated to
`limit` and never raises (the embedding is a total function). -/
theorem C9_rerank_fails_open (apiKey : Option String)
    (callOutcome : Except String String) (parse : String → Option RerankResponse)
    (results : List SearchResult) (limit : Nat)
    (h : apiKey = none ∨ (∃ m, callOutcome = Except.error m) ∨
      (∀ t, callOutcome = Except.ok t → parse (stripFences t.trim) = none)) :
    rerank_results apiKey callOutcome parse results limit = results.take limit := by
  unfold rerank_results
  by_cases he : results.isEmpty
  · rw [if_pos he, List.isEmpty_iff.1 he, List.take_nil]
  · rw [if_neg he]
    rcases h with rfl | ⟨m, rfl⟩ | hp
    · rfl
    · cases apiKey with
      | none => rfl
      | some k => rfl
    · cases apiKey with
      | none => rfl
      | some k =>
        cases hc : callOutcome with
        | error m => rfl
        | ok t =>
          show (match parse (stripFences t.trim) with
            | none => results.take limit
            | some resp =>
              match rerankCombined results resp with
              | none => results.take limit
              | some combined => combined.take limit) = results.take limit
          rw [hp t hc]

/-- C9 witness: with no API key the reranker returns the input truncated to
`limit`. -/
theorem C9_rerank_fails_open_witness :
    ((none : Option String) = none) ∧
    rerank_results none (Except.ok "t") (fun _ => none) c4two 1 = c4two.take 1 :=
  ⟨rfl, C9_rerank_fails_open none (Except.ok "t") (fun _ => none) c4two 1 (Or.inl rfl)⟩

theorem mem_foldl_phase2 (cid : String) (th : ℚ) (x : SearchResult) :
    ∀ (l : List Doc) (acc : List SearchResult × List String),
    x ∈ acc.1 → x ∈ (l.foldl (phase2Step cid th) acc).1 := by
  intro l acc hx
  refine foldl_preserve (phase2Step cid th)
    (fun acc : List SearchResult × List String => x ∈ acc.1) ?_ l acc hx
  intro s d hs
  rcases phase2Step_cases cid th s d with he | he <;> rw [he]
  · exact hs
  · exact List.mem_append_left _ hs

theorem semResult_mem_phase2 (cid : String) (th : ℚ) :
    ∀ (l : List Doc) (acc : List SearchResult × List String) (d : Doc),
    d ∈ l → (l.map Doc.docId).Nodup → d.docId ∉ acc.2 → d.sim = none →
    semResultOf cid d ∈ (l.foldl (phase2Step cid th) acc).1
  | [], _, d, hd, _, _, _ => absurd hd (List.not_mem_nil d)
  | d' :: l, acc, d, hd, hnd, hseen, hsim => by
    rw [List.foldl_cons]
    rcases List.mem_cons.1 hd with rfl | hdl
    · have hstep : phase2Step cid th acc d =
          (acc.1 ++ [semResultOf cid d], acc.2 ++ [d.docId]) := by
        simp [phase2Step, hseen, hsim]
      rw [hstep]
      exact mem_foldl_phase2 cid th _ l _
        (List.mem_append_right _ (List.mem_singleton.2 rfl))
    · have hnd' : (d'.docId :: l.map Doc.docId).Nodup := by simpa using hnd
      refine semResult_mem_phase2 cid th l (phase2Step cid th acc d') d hdl
        (List.nodup_cons.1 hnd').2 ?_ hsim
      have hne : d.docId ≠ d'.docId := by
        intro hEq
        exact (List.nodup_cons.1 hnd').1 (hEq ▸ List.mem_map_of_mem Doc.docId hdl)
      rcases phase2Step_cases cid th acc d' with he | he <;> rw [he]
      · exact hseen
      · intro hmem
        rcases List.mem_append.1 hmem with hm | hm
        · exact hseen hm
        · exact hne (List.mem_singleton.1 hm)

theorem mem_foldl_elem (cid : String) (th : ℚ) (x : SearchResult) :
    ∀ (l : List ElemDoc) (acc : List SearchResult),
    x ∈ acc → x ∈ l.foldl (elemStep cid th) acc := by
  intro l acc hx
  refine foldl_preserve (elemStep cid th) (fun acc => x ∈ acc) ?_ l acc hx
  intro s d hs
  unfold elemStep
  cases d.sim with
  | some v =>
    dsimp only
    by_cases hv : v < th
    · rw [if_pos hv]; exact hs
    · rw [if_neg hv]; exact List.mem_append_left _ hs
  | none => exact List.mem_append_left _ hs

theorem elemResult_mem_fold (cid : String) (th : ℚ) :
    ∀ (l : List ElemDoc) (acc : List SearchResult) (e : ElemDoc),
    e ∈ l → e.sim = none → elemResultOf cid e ∈ l.foldl (elemStep cid th) acc
  | [], _, e, he, _ => absurd he (List.not_mem_nil e)
  | e' :: l, acc, e, he, hsim => by
    rw [List.foldl_cons]
    rcases List.mem_cons.1 he with rfl | hel
    · have hstep : elemStep cid th acc e = acc ++ [elemResultOf cid e] := by
        unfold elemStep
        rw [hsim]
      rw [hstep]
      exact mem_foldl_elem cid th _ l _
        (List.mem_append_right _ (List.mem_singleton.2 rfl))
    · exact elemResult_mem_fold cid th l (elemStep cid th acc e') e hel hsim

theorem search_elements_eq (cid : String) (elemCandidates : List ElemDoc) (th : ℚ) :
    search_elements cid elemCandidates th =
      sortByScoreDesc (elemCandidates.foldl (elemStep cid th) []) := rfl

/-- C10: a semantic candidate (document or element) whose stored
`vector_distance` is missing is not dropped by the threshold filter: it is
returned with `rawSimilarity` null and `weightedScore` `0.0`, and both result
lists are sorted by descending weighted score, so it sorts after every
candidate with a positive score. -/
theorem C10_null_similarity_kept (cid : String) (db : List Doc)
    (semCandidates : List Doc) (limit : Nat) (th : ℚ) (exactTerms : List String)
    (elemCandidates : List ElemDoc) (d : Doc) (e : ElemDoc)
    (hd : d ∈ semCandidates) (hnd : (semCandidates.map Doc.docId).Nodup)
    (hseen : d.docId ∉ (exactPhase cid db limit exactTerms).2) (hsim : d.sim = none)
    (he : e ∈ elemCandidates) (hesim : e.sim = none) :
    (semResultOf cid d ∈ searchCollectionStd cid db semCandidates limit th exactTerms ∧
      (semResultOf cid d).rawSimilarity = none ∧
      (semResultOf cid d).weightedScore = 0) ∧
    (elemResultOf cid e ∈ search_elements cid elemCandidates th ∧
      (elemResultOf cid e).rawSimilarity = none ∧
      (elemResultOf cid e).weightedScore = 0) ∧
    List.Sorted scoreGE (searchCollectionStd cid db semCandidates limit th exactTerms) ∧
    List.Sorted scoreGE (search_elements cid elemCandidates th) := by
  refine ⟨⟨?_, hsim, ?_⟩, ⟨?_, hesim, ?_⟩, ?_, ?_⟩
  · rw [searchCollectionStd_eq]
    exact mem_sortByScoreDesc.2
      (semResult_mem_phase2 cid th semCandidates _ d hd hnd hseen hsim)
  · show calculate_relevance_score d.sim = 0
    rw [hsim]
    rfl
  · rw [search_elements_eq]
    exact mem_sortByScoreDesc.2 (elemResult_mem_fold cid th elemCandidates [] e he hesim)
  · show calculate_relevance_score e.sim = 0
    rw [hesim]
    rfl
  · rw [searchCollectionStd_eq]
    exact sortByScoreDesc_sorted _
  · rw [search_elements_eq]
    exact sortByScoreDesc_sorted _

/-- C10 witness: concrete null-similarity document and element candidates are
returned with null similarity and zero score. -/
theorem C10_null_similarity_kept_witness :
    (w10Doc ∈ [w10Doc] ∧ w10Doc.sim = none ∧ w10Elem ∈ [w10Elem] ∧
      w10Elem.sim = none ∧
      w10Doc.docId ∉ (exactPhase "c" [] 2 []).2) ∧
    (semResultOf "c" w10Doc ∈ searchCollectionStd "c" [] [w10Doc] 2 (3/10) [] ∧
      (semResultOf "c" w10Doc).weightedScore = 0) ∧
    (elemResultOf "c" w10Elem ∈ search_elements "c" [w10Elem] (3/10) ∧
      (elemResultOf "c" w10Elem).weightedScore = 0) := by
  have h := C10_null_similarity_kept "c" [] [w10Doc] 2 (3/10) [] [w10Elem] w10Doc w10Elem
    (by decide) (by decide) (by decide) (by decide) (by decide) (by decide)
  exact ⟨⟨by decide, by decide, by decide, by decide, by decide⟩,
    ⟨h.1.1, h.1.2.2⟩, ⟨h.2.1.1, h.2.1.2.2⟩⟩

theorem if_lt_max (a b : ℚ) : (if a < b then b else a) = max a b := by
  rcases lt_or_le a b with h | h
  · rw [if_pos h, max_eq_right h.le]
  · rw [if_neg (not_lt.2 h), max_eq_left h]

theorem foldl_ifmax_map {α : Type} (f : α → ℚ) : ∀ (l : List α) (b : ℚ),
    l.foldl (fun b s => if b < f s then f s else b) b = (l.map f).foldl max b
  | [], _ => rfl
  | x :: l, b => by
    rw [List.foldl_cons, List.map_cons, List.foldl_cons, foldl_ifmax_map f l]
    congr 1
    exact if_lt_max b (f x)

theorem le_foldl_max : ∀ (l : List ℚ) (b : ℚ), b ≤ l.foldl max b
  | [], b => le_refl b
  | x :: l, b => le_trans (le_max_left b x) (le_foldl_max l (max b x))

/-- The score/tag pair the debug phase 4 computes for an entry with at least
one exact match: tag `"exact"` and the maximum of `0.95`, all per-term
semantic scores and the full-query score. -/
theorem debugBestScore_exact (e : DebugEntry) (hex : e.exactMatches ≠ []) :
    (debugBestScore e).2 = "exact" ∧
    (debugBestScore e).1 =
      ((e.semanticScores.map (fun s => s.2.2)) ++
        (match e.fullQueryScore with | some p => [p.2] | none => [])).foldl
        max (19/20) := by
  unfold debugBestScore
  dsimp only
  rw [if_pos hex]
  refine ⟨rfl, ?_⟩
  have hb1 : e.semanticScores.foldl (fun b s => if b < s.2.2 then s.2.2 else b) (19/20 : ℚ)
      = (e.semanticScores.map (fun s => s.2.2)).foldl max (19/20) :=
    foldl_ifmax_map (fun s => s.2.2) e.semanticScores (19/20)
  rw [List.foldl_append, ← hb1]
  cases hfq : e.fullQueryScore with
  | none => rfl
  | some p =>
    dsimp only [List.foldl_cons, List.foldl_nil]
    exact if_lt_max _ p.2

theorem mem_foldl_debug4 (cid : String) (th : ℚ) (x : SearchResult) :
    ∀ (l : List (String × DebugEntry)) (acc : List SearchResult),
    x ∈ acc → x ∈ l.foldl (debugPhase4Step cid th) acc := by
  intro l acc hx
  refine foldl_preserve (debugPhase4Step cid th) (fun acc => x ∈ acc) ?_ l acc hx
  intro s p hs
  unfold debugPhase4Step
  split
  · exact hs
  · exact List.mem_append_left _ hs

theorem debugResult_mem_phase4 (cid : String) (th : ℚ) :
    ∀ (scores : List (String × DebugEntry)) (acc : List SearchResult)
      (p : String × DebugEntry),
    p ∈ scores →
    ¬((debugBestScore p.2).1 < th ∧ (debugBestScore p.2).2 ≠ "exact") →
    debugResultOf cid p.2 ∈ scores.foldl (debugPhase4Step cid th) acc
  | [], _, p, hp, _ => absurd hp (List.not_mem_nil p)
  | q :: scores, acc, p, hp, hkeep => by
    rw [List.foldl_cons]
    rcases List.mem_cons.1 hp with rfl | hpl
    · have hstep : debugPhase4Step cid th acc p = acc ++ [debugResultOf cid p.2] := by
        unfold debugPhase4Step
        rw [if_neg hkeep]
      rw [hstep]
      exact mem_foldl_debug4 cid th _ scores _
        (List.mem_append_right _ (List.mem_singleton.2 rfl))
    · exact debugResult_mem_phase4 cid th scores (debugPhase4Step cid th acc q) p hpl hkeep

/-- C5 (amended): in debug mode, a document with at least one matched exact
term is tagged `"exact"`, is never removed by the threshold filter, and its
returned weighted score is the maximum of `0.95` and all of its per-term
semantic and full-query scores (so at least `0.95`, and exactly `0.95` only
when no semantic or full-query signal scores higher). -/
theorem C5_debug_exact_floor (cid : String) (th : ℚ) (docKey : String)
    (e : DebugEntry) (scores : List (String × DebugEntry))
    (hmem : (docKey, e) ∈ scores) (hex : e.exactMatches ≠ []) :
    debugResultOf cid e ∈ debugPhase4 cid th scores ∧
    (debugResultOf cid e).matchType = "exact" ∧
    (debugResultOf cid e).weightedScore =
      ((e.semanticScores.map (fun s => s.2.2)) ++
        (match e.fullQueryScore with | some p => [p.2] | none => [])).foldl
        max (19/20) ∧
    (19/20 : ℚ) ≤ (debugResultOf cid e).weightedScore := by
  have hbs := debugBestScore_exact e hex
  have hkeep : ¬((debugBestScore e).1 < th ∧ (debugBestScore e).2 ≠ "exact") := by
    intro ⟨_, hne⟩
    exact hne hbs.1
  refine ⟨?_, hbs.1, hbs.2, ?_⟩
  · exact debugResult_mem_phase4 cid th scores [] (docKey, e) hmem hkeep
  · show (19/20 : ℚ) ≤ (debugBestScore e).1
    rw [hbs.2]
    exact le_foldl_max _ _

/-- C5 counterexample: a document matching an exact term whose per-term
semantic similarity is `0.8` is returned by debug-mode search tagged
`"exact"` but with weighted score `1.0`, not `0.95`. -/
theorem C5_counterexample :
    ((search_collection_debug "c" [cxDocBoth] [("t", [cxDocBoth])] [] 10 (3/10)
        ["X"]).map (fun r => (r.matchType, r.weightedScore))) = [("exact", 1)] ∧
    (1 : ℚ) ≠ 19/20 := by
  constructor
  · with_unfolding_all decide
  · with_unfolding_all decide

/-- C5 witness: a concrete entry with an exact match and a higher semantic
score survives the filter with score `1.0`. -/
theorem C5_debug_exact_floor_witness :
    (("a", w5Entry) ∈ [("a", w5Entry)] ∧ w5Entry.exactMatches ≠ []) ∧
    debugResultOf "c" w5Entry ∈ debugPhase4 "c" (3/10) [("a", w5Entry)] ∧
    (debugResultOf "c" w5Entry).matchType = "exact" ∧
    (debugResultOf "c" w5Entry).weightedScore = 1 := by
  have h := C5_debug_exact_floor "c" (3/10) "a" w5Entry [("a", w5Entry)]
    (by with_unfolding_all decide) (by with_unfolding_all decide)
  exact ⟨⟨by with_unfolding_all decide, by with_unfolding_all decide⟩,
    h.1, h.2.1, by with_unfolding_all decide⟩

theorem stripRerank_update (r : SearchResult) (p : Option Nat) (o : Option Int)
    (ex : Option String) :
    stripRerank
      { r with rerankPosition := p, originalPosition := o, rerankExplanation := ex } =
      stripRerank r := rfl

theorem stripRerank_update2 (r : SearchResult) (p : Option Nat) (o : Option Int) :
    stripRerank { r with rerankPosition := p, originalPosition := o } =
      stripRerank r := rfl

theorem rerankPick_spec (results : List SearchResult) (explan : List (String × String)) :
    ∀ (idxs : List Int) (rank : Nat) (out : List SearchResult) (seen : List Int),
    (∀ i ∈ idxs, 0 ≤ i) →
    (∀ i ∈ seen, 0 ≤ i ∧ i < (results.length : Int)) →
    seen.Nodup →
    out.map stripRerank =
      seen.map (fun i => stripRerank (results.getD i.toNat dfltResult)) →
    ∃ out' seen',
      rerankPick results explan idxs rank out seen = some (out', seen') ∧
      (∀ i ∈ seen', 0 ≤ i ∧ i < (results.length : Int)) ∧
      seen'.Nodup ∧
      out'.map stripRerank =
        seen'.map (fun i => stripRerank (results.getD i.toNat dfltResult)) ∧
      (∀ i, i ∈ seen' ↔ i ∈ seen ∨ (i ∈ idxs ∧ i < (results.length : Int)))
  | [], rank, out, seen, _, hrange, hnd, hout =>
    ⟨out, seen, rfl, hrange, hnd, hout, by simp⟩
  | idx :: rest, rank, out, seen, hnn, hrange, hnd, hout => by
    have hnn0 : 0 ≤ idx := hnn idx (List.mem_cons_self _ _)
    by_cases hskip : ((results.length : Int) ≤ idx ∨ idx ∈ seen)
    · have heq : rerankPick results explan (idx :: rest) rank out seen =
          rerankPick results explan rest (rank + 1) out seen := by
        simp only [rerankPick]
        rw [if_pos hskip]
      rcases rerankPick_spec results explan rest (rank + 1) out seen
        (fun i hi => hnn i (List.mem_cons_of_mem _ hi)) hrange hnd hout with
        ⟨out', seen', hpick, hrange', hnd', hout', hmem'⟩
      refine ⟨out', seen', heq.trans hpick, hrange', hnd', hout', ?_⟩
      intro i
      rw [hmem' i]
      constructor
      · rintro (h | ⟨h1, h2⟩)
        · exact Or.inl h
        · exact Or.inr ⟨List.mem_cons_of_mem _ h1, h2⟩
      · rintro (h | ⟨h1, h2⟩)
        · exact Or.inl h
        · rcases List.mem_cons.1 h1 with rfl | h1
          · rcases hskip with hs | hs
            · omega
            · exact Or.inl hs
          · exact Or.inr ⟨h1, h2⟩
    · have hskip' := hskip
      push_neg at hskip'
      obtain ⟨hle, hnotseen⟩ := hskip'
      have hlt : idx < (results.length : Int) := hle
      have hk : idx.toNat < results.length := by omega
      have hpy : pyIdx results.length idx = some idx.toNat := by
        unfold pyIdx
        rw [if_pos hnn0, if_pos hlt]
      have heq : rerankPick results explan (idx :: rest) rank out seen =
          rerankPick results explan rest (rank + 1)
            (out ++ [{ results.getD idx.toNat dfltResult with
                rerankPosition := some rank
                originalPosition := some idx
                rerankExplanation := explan.lookup (toString idx) }])
            (seen ++ [idx]) := by
        simp only [rerankPick]
        rw [if_neg hskip, hpy]
        dsimp only
        rw [List.getElem?_eq_getElem hk]
        dsimp only
        rw [List.getD_eq_getElem results dfltResult hk]
      rcases rerankPick_spec results explan rest (rank + 1)
        (out ++ [{ results.getD idx.toNat dfltResult with
            rerankPosition := some rank
            originalPosition := some idx
            rerankExplanation := explan.lookup (toString idx) }])
        (seen ++ [idx])
        (fun i hi => hnn i (List.mem_cons_of_mem _ hi))
        (fun i hi => by
          rcases List.mem_append.1 hi with h | h
          · exact hrange i h
          · rcases List.mem_singleton.1 h with rfl
            exact ⟨hnn0, hlt⟩)
        (List.Nodup.append hnd (List.nodup_singleton idx)
          (fun a ha hb => hnotseen ((List.mem_singleton.1 hb) ▸ ha)))
        (by
          rw [List.map_append, List.map_append, hout]
          rfl) with
        ⟨out', seen', hpick, hrange', hnd', hout', hmem'⟩
      refine ⟨out', seen', heq.trans hpick, hrange', hnd', hout', ?_⟩
      intro i
      rw [hmem' i]
      constructor
      · rintro (h | ⟨h1, h2⟩)
        · rcases List.mem_append.1 h with h | h
          · exact Or.inl h
          · rcases List.mem_singleton.1 h with rfl
            exact Or.inr ⟨List.mem_cons_self _ _, hlt⟩
        · exact Or.inr ⟨List.mem_cons_of_mem _ h1, h2⟩
      · rintro (h | ⟨h1, h2⟩)
        · exact Or.inl (List.mem_append_left _ h)
        · rcases List.mem_cons.1 h1 with rfl | h1
          · exact Or.inl (List.mem_append_right _ (List.mem_singleton.2 rfl))
          · exact Or.inr ⟨h1, h2⟩

theorem appendRest_fold_spec (results : List SearchResult) (seen : List Int) :
    ∀ (ks : List Nat) (out : List SearchResult),
    (ks.foldl (fun acc i =>
        if Int.ofNat i ∈ seen then acc
        else acc ++ [{ results.getD i dfltResult with
            rerankPosition := some acc.length
            originalPosition := some (Int.ofNat i) }]) out).map stripRerank =
      out.map stripRerank ++ ks.filterMap (fun k =>
        if Int.ofNat k ∈ seen then none
        else some (stripRerank (results.getD k dfltResult)))
  | [], out => by simp
  | k :: ks, out => by
    rw [List.foldl_cons]
    by_cases hk : Int.ofNat k ∈ seen
    · rw [if_pos hk, List.filterMap_cons_none (by rw [if_pos hk])]
      exact appendRest_fold_spec results seen ks out
    · rw [if_neg hk, List.filterMap_cons_some (by rw [if_neg hk]),
        appendRest_fold_spec results seen ks _, List.map_append,
        List.map_singleton, stripRerank_update2]
      simp

theorem rerankAppendRest_strip (results : List SearchResult) (seen : List Int)
    (out : List SearchResult) :
    (rerankAppendRest results seen out).map stripRerank =
      out.map stripRerank ++ (List.range results.length).filterMap (fun k =>
        if Int.ofNat k ∈ seen then none
        else some (stripRerank (results.getD k dfltResult))) :=
  appendRest_fold_spec results seen (List.range results.length) out

theorem picked_filter_perm (S : List Nat) (n : Nat) (hnd : S.Nodup)
    (hlt : ∀ k ∈ S, k < n) :
    (S ++ (List.range n).filterMap
      (fun k => if k ∈ S then none else some k)).Perm (List.range n) := by
  have hTmem : ∀ k, (k ∈ (List.range n).filterMap
      (fun k => if k ∈ S then none else some k)) ↔ (k < n ∧ k ∉ S) := by
    intro k
    rw [List.mem_filterMap]
    constructor
    · rintro ⟨a, ha, hfa⟩
      by_cases haS : a ∈ S
      · rw [if_pos haS] at hfa; cases hfa
      · rw [if_neg haS] at hfa
        injection hfa with hfa
        exact hfa ▸ ⟨List.mem_range.1 ha, haS⟩
    · rintro ⟨hk, hkS⟩
      exact ⟨k, List.mem_range.2 hk, by rw [if_neg hkS]⟩
  have hTnd : ((List.range n).filterMap
      (fun k => if k ∈ S then none else some k)).Nodup := by
    refine List.Nodup.filterMap ?_ (List.nodup_range n)
    intro a a' b hb hb'
    rw [Option.mem_def] at hb hb'
    by_cases haS : a ∈ S
    · rw [if_pos haS] at hb; cases hb
    · rw [if_neg haS] at hb
      by_cases haS' : a' ∈ S
      · rw [if_pos haS'] at hb'; cases hb'
      · rw [if_neg haS'] at hb'
        injection hb with hb
        injection hb' with hb'
        rw [hb, hb']
  refine (List.perm_ext_iff_of_nodup ?_ (List.nodup_range n)).2 ?_
  · rw [List.nodup_append]
    exact ⟨hnd, hTnd, fun a haS haT => ((hTmem a).1 haT).2 haS⟩
  · intro a
    rw [List.mem_append, List.mem_range, hTmem a]
    constructor
    · rintro (h | ⟨h1, _⟩)
      · exact hlt a h
      · exact h1
    · intro h
      by_cases haS : a ∈ S
      · exact Or.inl haS
      · exact Or.inr ⟨h, haS⟩

theorem map_getD_range {α β : Type} (d : α) (f : α → β) :
    ∀ (l : List α),
    (List.range l.length).map (fun k => f (l.getD k d)) = l.map f
  | [] => rfl
  | a :: l => by
    rw [List.length_cons, List.range_succ_eq_map, List.map_cons, List.map_cons,
      List.map_map]
    rw [← map_getD_range d f l]
    refine congrArg₂ List.cons rfl ?_
    refine List.map_congr_left ?_
    intro k _
    show f ((a :: l).getD (k + 1) d) = f (l.getD k d)
    rw [List.getD_cons_succ]

/-- C4 (amended): when every index of the model response is non-negative, the
reorder loop of `rerank_results` never fails and its combined output (ranked
indices, then the remaining results in original order) is a permutation of
the input — indices `≥ len(results)` or duplicated are ignored; a negative
in-range index, however, selects a result from the end of the list and
produces a duplicate.  On the spec scenario (5 results, `ranked_indices =
[2, 0]`) the combined order is `[r2, r0, r1, r3, r4]`, which `rerank_results`
then truncates to `limit`. -/
theorem C4_rerank_permutation :
    (∀ (results : List SearchResult) (resp : RerankResponse),
      (∀ i ∈ resp.ranked_indices, 0 ≤ i) →
      (rerankCombined results resp).isSome = true ∧
      (((rerankCombined results resp).getD []).map stripRerank).Perm
        (results.map stripRerank)) ∧
    ((rerankCombined c4five c4resp).getD []).map (fun r => r.documentId) =
      ["r2", "r0", "r1", "r3", "r4"] := by
  constructor
  · intro results resp hnn
    rcases rerankPick_spec results resp.explanations resp.ranked_indices 0 [] []
      hnn (by simp) (by simp) (by simp) with
      ⟨out', seen', hpick, hrange', hnd', hout', hmem'⟩
    have hcomb : rerankCombined results resp =
        some (rerankAppendRest results seen' out') := by
      unfold rerankCombined
      rw [hpick]
    rw [hcomb]
    refine ⟨rfl, ?_⟩
    show ((rerankAppendRest results seen' out').map stripRerank).Perm _
    rw [rerankAppendRest_strip, hout']
    have hiff : ∀ k : Nat, (Int.ofNat k ∈ seen') ↔ k ∈ seen'.map Int.toNat := by
      intro k
      constructor
      · intro h
        exact List.mem_map.2 ⟨Int.ofNat k, h, Int.toNat_ofNat k⟩
      · intro h
        rcases List.mem_map.1 h with ⟨i, hi, hik⟩
        have h0 : 0 ≤ i := (hrange' i hi).1
        have hik' : i = Int.ofNat k := by
          rw [← hik]
          exact (Int.toNat_of_nonneg h0).symm
        rw [← hik']
        exact hi
    have hSmap : seen'.map (fun i => stripRerank (results.getD i.toNat dfltResult)) =
        (seen'.map Int.toNat).map
          (fun k => stripRerank (results.getD k dfltResult)) := by
      rw [List.map_map]
      rfl
    have hfm : (List.range results.length).filterMap (fun k =>
        if Int.ofNat k ∈ seen' then none
        else some (stripRerank (results.getD k dfltResult))) =
        ((List.range results.length).filterMap
          (fun k => if k ∈ seen'.map Int.toNat then none else some k)).map
          (fun k => stripRerank (results.getD k dfltResult)) := by
      rw [List.map_filterMap]
      refine List.filterMap_congr ?_
      intro k _
      rw [if_congr (hiff k) rfl rfl]
      by_cases hkS : k ∈ seen'.map Int.toNat
      · rw [if_pos hkS, if_pos hkS]
        rfl
      · rw [if_neg hkS, if_neg hkS]
        rfl
    have hSnd : (seen'.map Int.toNat).Nodup := by
      refine List.Nodup.map_on ?_ hnd'
      intro x hx y hy hxy
      have h0x := (hrange' x hx).1
      have h0y := (hrange' y hy).1
      omega
    have hSlt : ∀ k ∈ seen'.map Int.toNat, k < results.length := by
      intro k hk
      rcases List.mem_map.1 hk with ⟨i, hi, rfl⟩
      have h1 := (hrange' i hi).2
      have h2 := (hrange' i hi).1
      omega
    rw [hSmap, hfm, ← List.map_append]
    have hperm := (picked_filter_perm (seen'.map Int.toNat) results.length hSnd hSlt).map
      (fun k => stripRerank (results.getD k dfltResult))
    refine hperm.trans ?_
    rw [map_getD_range dfltResult stripRerank results]
  · with_unfolding_all decide

/-- C4 counterexample: on two results the model index `-1` passes the
`original_idx >= len(results)` guard, selects the last result, and the safety
loop appends it again — the combined output `[b, a, b]` is not a permutation
of the input. -/
theorem C4_counterexample :
    (rerankCombined c4two c4negResp).isSome = true ∧
    ((rerankCombined c4two c4negResp).getD []).map (fun r => r.documentId) =
      ["b", "a", "b"] ∧
    ¬ (((rerankCombined c4two c4negResp).getD []).map stripRerank).Perm
      (c4two.map stripRerank) := by
  refine ⟨?_, ?_, ?_⟩ <;> with_unfolding_all decide

/-- C4 witness: the scenario input `ranked_indices = [2, 0]` has only
non-negative indices, the reorder succeeds, and the combined output is a
permutation of the five inputs. -/
theorem C4_rerank_permutation_witness :
    (c4resp.ranked_indices.all (fun i => decide (0 ≤ i))) = true ∧
    (rerankCombined c4five c4resp).isSome = true ∧
    (((rerankCombined c4five c4resp).getD []).map stripRerank).Perm
      (c4five.map stripRerank) := by
  have h := C4_rerank_permutation.1 c4five c4resp (by decide)
  exact ⟨by decide, h.1, h.2⟩


